import Mathlib

/-!
Shallow embedding of the authorization and hierarchy subsystem of the
acs-backend repository: the hierarchical AuthorizationService
(services/authorizationService, the Union/Conference/Church version),
the Role model (models/Role: permission validation, system-role seeding,
the hasPermission method), the serviceAuth middleware, the church route
hierarchy filters, and the union/church soft-delete integrity guards.
JavaScript strings are Lean Strings; MongoDB collections are Lean lists of
records; a Mongo query is the corresponding list filter; a regex of the
form caret-pattern built by string interpolation is modelled by a matcher
that interprets the dot metacharacter, which is the only metacharacter the
relevant inputs can exhibit.
-/

namespace ACS

/-! ## Character and string helpers mirroring the JavaScript operations -/

/-- Split a list of characters at every occurrence of `sep`, JavaScript
String.prototype.split semantics for a one-character separator: the empty
string splits to one empty group, separators at the ends produce empty
groups. -/
def splitChars (sep : Char) : List Char → List (List Char)
  | [] => [[]]
  | c :: cs =>
    match splitChars sep cs with
    | [] => if c == sep then [[], []] else [[c]]
    | g :: gs => if c == sep then [] :: g :: gs else (c :: g) :: gs

/-- Split at the first occurrence of `sep`: `some (before, after)` when `sep`
occurs, `none` otherwise. -/
def splitAtChar (sep : Char) : List Char → Option (List Char × List Char)
  | [] => none
  | c :: cs =>
    if c == sep then some ([], cs)
    else
      match splitAtChar sep cs with
      | some (l, r) => some (c :: l, r)
      | none => none

/-- JavaScript s.split(sep) for a one-character separator. -/
def jsSplit (s : String) (sep : Char) : List String :=
  (splitChars sep s.data).map String.mk

/-- JavaScript target.startsWith(candidate): raw string-prefix test. -/
def jsStartsWith (s candidate : String) : Bool :=
  List.isPrefixOf candidate.data s.data

/-- Matcher for the regexes the code interpolates hierarchy paths into:
an anchored caret followed by the pattern, matched at the start of the
subject, where a dot in the pattern matches any one character and every
other character matches itself. This is exactly the regex dialect the
embedded queries can produce from path data. -/
def dotPat : List Char → List Char → Bool
  | [], _ => true
  | _ :: _, [] => false
  | p :: ps, c :: cs => (p == '.' || p == c) && dotPat ps cs

/-- The Mongo filter or RegExp test the code builds as caret ++ pat,
applied to a stored string. -/
def caretRegexTest (pat s : String) : Bool :=
  dotPat pat.data s.data

/-- A character of the permission-grammar word class [a-z_]. -/
def isPermChar (c : Char) : Bool :=
  ('a' ≤ c && c ≤ 'z') || c == '_'

/-- Boolean [a-z_]+ test. -/
def wordChars (cs : List Char) : Bool :=
  !cs.isEmpty && cs.all isPermChar

/-! ## Data model: hierarchy entities, roles, assignments, users -/

/-- A Role document (models/Role schema, declared fields). -/
structure Role where
  name : String
  displayName : String
  level : String
  permissions : List String
  description : String
  isSystem : Bool
  isActive : Bool
  deriving DecidableEq, Repr

/-- One hierarchical assignment of a user: the entity id at that level and
the populated role document (absent when population failed). -/
structure Assignment where
  entity : String
  role : Option Role
  deriving DecidableEq, Repr

/-- A User document as the authorization service reads it. -/
structure User where
  id : String
  isSuperAdmin : Bool
  unionAssignments : List Assignment
  conferenceAssignments : List Assignment
  churchAssignments : List Assignment
  deriving DecidableEq, Repr

/-- A Union document (fields the delete guard reads). -/
structure UnionRec where
  id : String
  hierarchyPath : String
  isActive : Bool
  deriving DecidableEq, Repr

/-- A Conference document. -/
structure Conference where
  id : String
  unionId : String
  isActive : Bool
  deriving DecidableEq, Repr

/-- A Church document. -/
structure Church where
  id : String
  unionId : String
  conferenceId : String
  hierarchyPath : String
  isActive : Bool
  deriving DecidableEq, Repr

/-- A Team document (fields the delete guards read). -/
structure TeamRec where
  id : String
  churchId : String
  hierarchyPath : String
  isActive : Bool
  deriving DecidableEq, Repr

/-- A Service document (fields the union delete guard reads; a service
carries a status enum rather than an isActive flag). -/
structure ServiceRec where
  id : String
  hierarchyPath : String
  status : String
  deriving DecidableEq, Repr

/-- The database snapshot an authorization request reads. -/
structure DB where
  unions : List UnionRec
  conferences : List Conference
  churches : List Church
  teams : List TeamRec
  services : List ServiceRec
  users : List User
  deriving DecidableEq, Repr

/-! ## AuthorizationService (the hierarchical Union/Conference/Church one) -/

/-- All hierarchical assignments of a user, union then conference then
church, as the service concatenates them. -/
def allAssignments (u : User) : List Assignment :=
  u.unionAssignments ++ u.conferenceAssignments ++ u.churchAssignments

/-- AuthorizationService.isSuperAdmin: the direct flag, or any assignment
whose populated role is named super_admin. -/
def isSuperAdmin (u : User) : Bool :=
  u.isSuperAdmin ||
    (allAssignments u).any fun a =>
      match a.role with
      | some r => r.name == "super_admin"
      | none => false

/-- AuthorizationService.hasPermission: super admins pass; otherwise the
permission string must occur verbatim in some assignment role permission
list (Array.prototype.includes, a literal membership test). -/
def hasPermission (u : User) (permission : String) : Bool :=
  isSuperAdmin u ||
    (allAssignments u).any fun a =>
      match a.role with
      | some r => r.permissions.contains permission
      | none => false

/-- Insertion into the accumulator mirroring Set.prototype.add on a set
that is read off in insertion order. -/
def insertId (s : List String) (x : String) : List String :=
  if s.contains x then s else s ++ [x]

/-- Add every element of `xs` to the accumulator in order. -/
def addAll (s : List String) (xs : List String) : List String :=
  xs.foldl insertId s

/-- AuthorizationService.getUserUnionAccess. -/
def getUserUnionAccess (db : DB) (u : User) : List String :=
  if isSuperAdmin u then
    (db.unions.filter (·.isActive)).map (·.id)
  else
    let s1 := u.unionAssignments.foldl (fun s a => insertId s a.entity) []
    let s2 := u.conferenceAssignments.foldl
      (fun s a =>
        match db.conferences.find? (fun c => c.id == a.entity) with
        | some c => insertId s c.unionId
        | none => s) s1
    u.churchAssignments.foldl
      (fun s a =>
        match db.churches.find? (fun c => c.id == a.entity) with
        | some c => insertId s c.unionId
        | none => s) s2

/-- AuthorizationService.getUserConferenceAccess. The union-assignment
branch queries conferences of the union with no isActive restriction. -/
def getUserConferenceAccess (db : DB) (u : User) : List String :=
  if isSuperAdmin u then
    (db.conferences.filter (·.isActive)).map (·.id)
  else
    let s1 := u.unionAssignments.foldl
      (fun s a =>
        addAll s ((db.conferences.filter (fun c => c.unionId == a.entity)).map (·.id))) []
    let s2 := u.conferenceAssignments.foldl (fun s a => insertId s a.entity) s1
    u.churchAssignments.foldl
      (fun s a =>
        match db.churches.find? (fun c => c.id == a.entity) with
        | some c => insertId s c.conferenceId
        | none => s) s2

/-- AuthorizationService.getUserChurchAccess. Union and conference branches
restrict to active conferences and churches; direct church assignments are
added with no activity check. -/
def getUserChurchAccess (db : DB) (u : User) : List String :=
  if isSuperAdmin u then
    (db.churches.filter (·.isActive)).map (·.id)
  else
    let s1 := u.unionAssignments.foldl
      (fun s a =>
        (db.conferences.filter (fun c => c.unionId == a.entity && c.isActive)).foldl
          (fun s2 conf =>
            addAll s2
              ((db.churches.filter
                (fun ch => ch.conferenceId == conf.id && ch.isActive)).map (·.id))) s) []
    let s2 := u.conferenceAssignments.foldl
      (fun s a =>
        addAll s
          ((db.churches.filter
            (fun ch => ch.conferenceId == a.entity && ch.isActive)).map (·.id))) s1
    u.churchAssignments.foldl (fun s a => insertId s a.entity) s2

/-- AuthorizationService.canAccessChurch. -/
def canAccessChurch (db : DB) (u : User) (churchId : String) : Bool :=
  (getUserChurchAccess db u).contains churchId

/-- AuthorizationService.canAccessConference. -/
def canAccessConference (db : DB) (u : User) (conferenceId : String) : Bool :=
  (getUserConferenceAccess db u).contains conferenceId

/-- AuthorizationService.canAccessUser: empty target id is the falsy guard;
super admins pass before the target is looked up; a user passes on their
own id before the lookup; a missing target denies; a target with no
hierarchical assignments denies; otherwise some target assignment entity
must be in the corresponding accessible set of the requester. -/
def canAccessUser (db : DB) (u : User) (targetUserId : String) : Bool :=
  if targetUserId == "" then false
  else if isSuperAdmin u then true
  else if u.id == targetUserId then true
  else
    match db.users.find? (fun t => t.id == targetUserId) with
    | none => false
    | some target =>
      let tAssigns : List (String × String) :=
        target.unionAssignments.map (fun a => ("union", a.entity))
          ++ target.conferenceAssignments.map (fun a => ("conference", a.entity))
          ++ target.churchAssignments.map (fun a => ("church", a.entity))
      if tAssigns.isEmpty then false
      else
        tAssigns.any fun p =>
          if p.1 == "union" then (getUserUnionAccess db u).contains p.2
          else if p.1 == "conference" then (getUserConferenceAccess db u).contains p.2
          else if p.1 == "church" then (getUserChurchAccess db u).contains p.2
          else false

/-! ## serviceAuth middleware -/

/-- middleware/serviceAuth canManageService: falsy user or team id denies;
only the direct isSuperAdmin flag allows; every other user is denied (the
hierarchy-based branch is an unimplemented TODO returning false). The user
argument is optional to mirror the null check. -/
def canManageService (user : Option User) (teamId : String) : Bool :=
  match user with
  | none => false
  | some u =>
    if teamId == "" then false
    else if u.isSuperAdmin then true
    else false

/-! ## Role.hasPermission (the grammar-based matcher on the Role model) -/

/-- The callback of the scoped-permission check inside the Role method:
split the granted entry on dots, require a second component carrying a
colon, strip its scope, and compare resource and action with the required
ones (the required action is absent when the required string had no
dot). -/
def scopedEntryMatches (resource : String) (action : Option String) (permission : String) : Bool :=
  match (jsSplit permission '.')[1]? with
  | none => false
  | some pas =>
    if pas.data.contains ':' then
      ((jsSplit permission '.').headD "" == resource) &&
        (match action with
         | some a2 => (jsSplit pas ':').headD "" == a2
         | none => false)
    else false

/-- roleSchema.methods.hasPermission: wildcard entries, verbatim match,
resource wildcard via the first split component, then scoped entries whose
resource and scope-stripped action equal the required ones. Splitting is
JavaScript split, destructured to the first two components. -/
def roleHasPermission (permissions : List String) (required : String) : Bool :=
  if permissions.isEmpty then false
  else if permissions.contains "*" || permissions.contains "all" then true
  else if permissions.contains required then true
  else if permissions.contains ((jsSplit required '.').headD "" ++ ".*") then true
  else
    permissions.any
      (scopedEntryMatches ((jsSplit required '.').headD "") ((jsSplit required '.')[1]?))

/-- The scoped clause of the reference definition: the entry has a colon
scope suffix, and once that is split off at the first colon, the text
before the first dot and the text after it equal the required resource and
action. -/
def refScopedMatches (rRes : List Char) (rAct : Option (List Char)) (e : String) : Bool :=
  match splitAtChar ':' e.data with
  | none => false
  | some (base, _) =>
    ((splitAtChar '.' base).elim base (·.1) == rRes) &&
      ((splitAtChar '.' base).map (·.2) == rAct)

/-- Reference definition of granted-set matching, following the
specification: true iff the granted set contains a global wildcard, or the
required string verbatim, or the required resource followed by a dot-star,
or an entry carrying a colon scope suffix whose resource and action pair
equals the required one. The required resource is the text before the
first dot and the required action the text after it. -/
def matchesRef (granted : List String) (required : String) : Bool :=
  granted.contains "*" || granted.contains "all" ||
    granted.contains required ||
    granted.any
      (fun e => e.data == ((splitAtChar '.' required.data).elim required.data (·.1)) ++ ['.', '*']) ||
    granted.any
      (refScopedMatches ((splitAtChar '.' required.data).elim required.data (·.1))
        ((splitAtChar '.' required.data).map (·.2)))

/-! ## Role permission-string validation (the pre-save hook) -/

/-- The action-and-scope part of the permission regex: an [a-z_]+ action or
a literal star, optionally followed by a colon and an [a-z_]+ scope (every
named scope alternative of the source pattern is itself [a-z_]+). -/
def validActScope (cs : List Char) : Bool :=
  match splitAtChar ':' cs with
  | none => wordChars cs || cs == ['*']
  | some (act, sc) => (wordChars act || act == ['*']) && wordChars sc

/-- The permission regex of the pre-save hook: an [a-z_]+ resource, a dot,
then the action-and-scope part, anchored at both ends. -/
def validPermissionChars (cs : List Char) : Bool :=
  match splitAtChar '.' cs with
  | none => false
  | some (res, rest) => wordChars res && validActScope rest

/-- The malformed entries the pre-save hook collects: everything that is
not the lone star and fails the regex. -/
def invalidPermissionsOf (perms : List String) : List String :=
  perms.filter fun p => !(p == "*") && !(validPermissionChars p.data)

/-- Persisting a role document under the unique name key: replace the
first document of that name, or append. -/
def writeRole (table : List Role) (r : Role) : List Role :=
  if table.any (fun x => x.name == r.name) then
    table.map (fun x => if x.name == r.name then r else x)
  else table ++ [r]

/-- Saving a Role: the pre-save hook validates every permission entry and
aborts the save with the joined error message when any entry is malformed;
otherwise the document is persisted. Returns the resulting table and the
error, if any. -/
def saveRole (table : List Role) (r : Role) : List Role × Option String :=
  let bad := invalidPermissionsOf r.permissions
  if bad.isEmpty then (writeRole table r, none)
  else (table, some ("Invalid permission format: " ++ String.intercalate ", " bad))

/-! ## createSystemRoles (idempotent seeding of the built-in roles) -/

/-- The literal object passed for one system role. -/
structure RoleData where
  name : String
  displayName : String
  level : String
  permissions : List String
  description : String
  isSystem : Bool
  deriving DecidableEq, Repr

/-- findOneAndUpdate with a plain update object: set the provided fields,
leave the rest of the document alone. -/
def applyRoleUpdate (r : Role) (rd : RoleData) : Role :=
  { r with
    name := rd.name
    displayName := rd.displayName
    level := rd.level
    permissions := rd.permissions
    description := rd.description
    isSystem := rd.isSystem }

/-- A freshly upserted role document: the provided fields plus the schema
default for isActive. -/
def roleOfData (rd : RoleData) : Role :=
  { name := rd.name
    displayName := rd.displayName
    level := rd.level
    permissions := rd.permissions
    description := rd.description
    isSystem := rd.isSystem
    isActive := true }

/-- Update the first document matching the name key. -/
def updateFirstRole : List Role → RoleData → List Role
  | [], _ => []
  | r :: rs, rd =>
    if r.name == rd.name then applyRoleUpdate r rd :: rs
    else r :: updateFirstRole rs rd

/-- findOneAndUpdate on the name with upsert: update the first match, or
insert a new document. -/
def upsertRole (table : List Role) (rd : RoleData) : List Role :=
  if table.any (fun r => r.name == rd.name) then updateFirstRole table rd
  else table ++ [roleOfData rd]

/-- The permission list of the built-in conference_admin role. -/
def conferenceAdminPermissions : List String :=
  ["organizations.read:subordinate", "organizations.create:subordinate",
   "organizations.update:subordinate", "users.read:subordinate",
   "users.create:subordinate", "users.update:subordinate",
   "users.assign_role:subordinate", "roles.read",
   "services.create:subordinate", "services.read:subordinate",
   "services.update:subordinate", "services.delete:subordinate",
   "services.manage:subordinate", "services.publish:subordinate",
   "services.archive:subordinate", "stories.create:subordinate",
   "stories.read:subordinate", "stories.update:subordinate",
   "stories.delete:subordinate", "stories.manage:subordinate",
   "dashboard.view", "analytics.read:subordinate"]

/-- The fixed table of built-in system roles the seeding routine upserts. -/
def systemRoleData : List RoleData :=
  [ { name := "super_admin"
      displayName := "Super Administrator"
      level := "union"
      permissions := ["*"]
      description := "Full system access including system administration"
      isSystem := true },
    { name := "union_admin"
      displayName := "Union Administrator"
      level := "union"
      permissions :=
        ["users.*", "organizations.*", "roles.*", "services.*", "stories.*",
         "dashboard.view", "analytics.read", "analytics.export"]
      description := "Administrative access for union level without system permissions"
      isSystem := true },
    { name := "conference_admin"
      displayName := "Conference Administrator"
      level := "conference"
      permissions := conferenceAdminPermissions
      description := "Administrative access for conference level"
      isSystem := true },
    { name := "church_pastor"
      displayName := "Church Pastor"
      level := "church"
      permissions :=
        ["organizations.read:own", "organizations.update:own", "users.read:own",
         "users.create:own", "users.update:own", "users.assign_role:own",
         "roles.read", "services.create:own", "services.read:own",
         "services.update:own", "services.delete:own", "services.manage:own",
         "services.publish:own", "services.archive:own", "stories.create:own",
         "stories.read:own", "stories.update:own", "stories.delete:own",
         "stories.manage:own", "dashboard.view", "analytics.read:own"]
      description := "Full access within own church"
      isSystem := true },
    { name := "church_acs_leader"
      displayName := "Church ACS Leader"
      level := "church"
      permissions :=
        ["users.read:acs_team", "users.create:acs_team", "users.update:acs_team",
         "services.create:acs", "services.read:acs", "services.update:acs",
         "services.manage:acs", "services.publish:acs", "stories.create:acs",
         "stories.read:acs", "stories.update:acs", "stories.manage:acs",
         "dashboard.view"]
      description := "ACS team leadership role"
      isSystem := true },
    { name := "church_team_member"
      displayName := "Church Team Member"
      level := "church"
      permissions := ["users.read:acs_team", "services.read:acs", "stories.read:acs"]
      description := "Basic team member access"
      isSystem := true },
    { name := "church_viewer"
      displayName := "Church Viewer"
      level := "church"
      permissions := ["services.read:public", "stories.read:public"]
      description := "Read-only access to public information"
      isSystem := true } ]

/-- roleSchema.statics.createSystemRoles: upsert each built-in role by its
unique name, in order. -/
def createSystemRoles (table : List Role) : List Role :=
  systemRoleData.foldl upsertRole table

/-! ## Church route hierarchy filters -/

/-- The subtree test of the church search route: the stored path must be
truthy and start, as a raw string, with the requesting user path. -/
def searchSubtreeTest (userPath : String) (ch : Church) : Bool :=
  ch.hierarchyPath != "" && jsStartsWith ch.hierarchyPath userPath

/-- The church search route filter: users below conference level with a
hierarchy path only see churches passing the subtree test. -/
def searchHierarchyFilter (userLevel : Nat) (userPath : Option String)
    (churches : List Church) : List Church :=
  match userPath with
  | some p => if userLevel > 1 then churches.filter (searchSubtreeTest p) else churches
  | none => churches

/-- The church list route restriction: a Mongo regex of caret followed by
the raw user path, applied to the stored hierarchy path. -/
def listQueryTest (userPath : String) (ch : Church) : Bool :=
  caretRegexTest userPath ch.hierarchyPath

/-- The church list route filter for users below conference level. -/
def listHierarchyFilter (userLevel : Nat) (userPath : Option String)
    (churches : List Church) : List Church :=
  match userPath with
  | some p => if userLevel > 1 then churches.filter (listQueryTest p) else churches
  | none => churches

/-! ## Soft-delete integrity guards -/

/-- Outcome of a soft-delete request. -/
inductive DeleteOutcome where
  | notFound
  | blocked (level : String) (count : Nat)
  | deleted
  deriving DecidableEq, Repr

/-- The active-conference count of the union delete guard, a query on the
unionId reference. -/
def confCountQ (db : DB) (unionId : String) : Nat :=
  (db.conferences.filter (fun c => c.unionId == unionId && c.isActive)).length

/-- The active-church count of the union delete guard: a caret regex of the
raw union path followed by a slash, on the stored church paths. -/
def churchCountQ (db : DB) (rootPath : String) : Nat :=
  (db.churches.filter
    (fun c => caretRegexTest (rootPath ++ "/") c.hierarchyPath && c.isActive)).length

/-- The active-team count of the union delete guard, same query shape. -/
def teamCountQ (db : DB) (rootPath : String) : Nat :=
  (db.teams.filter
    (fun t => caretRegexTest (rootPath ++ "/") t.hierarchyPath && t.isActive)).length

/-- The service count of the union delete guard: same path query, with the
status restricted to anything other than archived. -/
def serviceCountQ (db : DB) (rootPath : String) : Nat :=
  (db.services.filter
    (fun s => caretRegexTest (rootPath ++ "/") s.hierarchyPath && s.status != "archived")).length

/-- DELETE /api/unions/:id — missing or already-inactive unions are not
found; the guard then checks conferences, churches, teams and services in
that order and blocks on the first non-zero count, naming the level and
the count; only when every count is zero is the union soft-deleted. -/
def deleteUnion (db : DB) (id : String) : DeleteOutcome × DB :=
  match db.unions.find? (fun un => un.id == id) with
  | none => (.notFound, db)
  | some un =>
    if !un.isActive then (.notFound, db)
    else if confCountQ db un.id > 0 then (.blocked "conference" (confCountQ db un.id), db)
    else if churchCountQ db un.hierarchyPath > 0 then
      (.blocked "church" (churchCountQ db un.hierarchyPath), db)
    else if teamCountQ db un.hierarchyPath > 0 then
      (.blocked "team" (teamCountQ db un.hierarchyPath), db)
    else if serviceCountQ db un.hierarchyPath > 0 then
      (.blocked "service" (serviceCountQ db un.hierarchyPath), db)
    else
      (.deleted,
        { db with
          unions := db.unions.map fun x => if x.id == id then { x with isActive := false } else x })

/-- The active-team count of the church delete guard, a query on the
churchId reference. -/
def churchTeamCountQ (db : DB) (churchId : String) : Nat :=
  (db.teams.filter (fun t => t.churchId == churchId && t.isActive)).length

/-- DELETE /api/churches/:id — a missing church is not found; an
authorized requester is then blocked when active teams of the church
exist, with the count named; otherwise the church is soft-deleted. -/
def deleteChurch (db : DB) (id : String) : DeleteOutcome × DB :=
  match db.churches.find? (fun c => c.id == id) with
  | none => (.notFound, db)
  | some _ =>
    if churchTeamCountQ db id > 0 then (.blocked "team" (churchTeamCountQ db id), db)
    else
      (.deleted,
        { db with
          churches := db.churches.map fun x => if x.id == id then { x with isActive := false } else x })

/-- The authorization decision the hierarchical routes compose out of the
cited service methods for an action on a church target: the permission
check on the requesting user and the church-access check on the target. -/
def authorizeOnChurch (db : DB) (u : User) (perm churchId : String) : Bool :=
  hasPermission u perm && canAccessChurch db u churchId

/-- The spec-side literal subtree count for comparison with the regex
queries: churches whose stored path literally starts with the root path
followed by the separator. -/
def literalChurchDescCount (db : DB) (rootPath : String) : Nat :=
  (db.churches.filter
    (fun c => jsStartsWith c.hierarchyPath (rootPath ++ "/") && c.isActive)).length

/-- Active service descendants by literal path, the count the
specification describes for the service level. -/
def activeServiceDescCount (db : DB) (rootPath : String) : Nat :=
  (db.services.filter
    (fun s => jsStartsWith s.hierarchyPath (rootPath ++ "/") && s.status == "active")).length

/-! ## Declarative permission grammar (the specification wording) -/

/-- A nonempty word over the permission character class. -/
def WordL (cs : List Char) : Prop :=
  cs ≠ [] ∧ ∀ c ∈ cs, isPermChar c = true

/-- The permission grammar as the specification states it: a word resource,
a dot, a word action or a literal star, and optionally a colon and a word
scope. -/
def PermGrammar (cs : List Char) : Prop :=
  ∃ res act, WordL res ∧ (WordL act ∨ act = ['*']) ∧
    (cs = res ++ '.' :: act ∨ ∃ sc, WordL sc ∧ cs = res ++ '.' :: act ++ ':' :: sc)

/-! ## Concrete scenario data used by the evaluation theorems -/

/-- The conference_admin role document of the end-to-end scenario. -/
def scenarioRole : Role :=
  { name := "conference_admin"
    displayName := "Conference Administrator"
    level := "conference"
    permissions := conferenceAdminPermissions
    description := "Administrative access for conference level"
    isSystem := true
    isActive := true }

/-- The principal of the end-to-end scenario: one conference-level
assignment on conference C1 with the conference_admin role. -/
def scenarioUser : User :=
  { id := "p1"
    isSuperAdmin := false
    unionAssignments := []
    conferenceAssignments := [⟨"C1", some scenarioRole⟩]
    churchAssignments := [] }

/-- The database of the end-to-end scenario: two active conferences of one
union and one active church under each. -/
def scenarioDB : DB :=
  { unions := []
    conferences := [⟨"C1", "U1", true⟩, ⟨"C2", "U1", true⟩]
    churches :=
      [⟨"Ch1", "U1", "C1", "U1/C1/Ch1", true⟩, ⟨"Ch2", "U1", "C2", "U1/C2/Ch2", true⟩]
    teams := []
    services := []
    users := [] }

/-- A user who is a super admin only through a role assignment, with the
direct flag unset. -/
def roleSuperUser : User :=
  { id := "p2"
    isSuperAdmin := false
    unionAssignments := []
    conferenceAssignments := []
    churchAssignments := [⟨"ch1", some ⟨"super_admin", "Super Administrator", "union", ["*"], "", true, true⟩⟩] }

/-- An active union whose only surviving descendants are one active and
one inactive service. -/
def inactiveServiceDB : DB :=
  { unions := [⟨"u1", "U1", true⟩]
    conferences := []
    churches := []
    teams := []
    services := [⟨"s1", "U1/c/ch/t/s1", "active"⟩, ⟨"s2", "U1/c/ch/t/s2", "inactive"⟩]
    users := [] }

/-- An active union whose hierarchy path carries a regex metacharacter,
next to an active church that is not its descendant but whose path the
unescaped pattern matches. -/
def injectionDB : DB :=
  { unions := [⟨"u1", "A.B", true⟩]
    conferences := []
    churches := [⟨"c1", "u9", "x", "AXB/c1", true⟩]
    teams := []
    services := []
    users := [] }

/-- A database holding one inactive conference. -/
def inactiveConfDB : DB :=
  { unions := []
    conferences := [⟨"c1", "u1", false⟩]
    churches := []
    teams := []
    services := []
    users := [] }

/-- A user directly assigned to the inactive conference. -/
def confAssignUser : User :=
  { id := "p6"
    isSuperAdmin := false
    unionAssignments := []
    conferenceAssignments := [⟨"c1", none⟩]
    churchAssignments := [] }

/-- A flagged super admin. -/
def flagSuperUser : User :=
  { id := "p10"
    isSuperAdmin := true
    unionAssignments := []
    conferenceAssignments := []
    churchAssignments := [] }

/-- A database with no users at all. -/
def emptyDB : DB :=
  { unions := [], conferences := [], churches := [], teams := [], services := [], users := [] }

/-- A role table is settled for one role datum when a document of that
name exists and updating the first such document changes nothing. -/
def RoleSettled (t : List Role) (rd : RoleData) : Prop :=
  t.any (fun r => r.name == rd.name) = true ∧ updateFirstRole t rd = t

/-! # Helper lemmas -/

theorem contains_iff_mem {α : Type} [BEq α] [LawfulBEq α] (l : List α) (a : α) :
    l.contains a = true ↔ a ∈ l := by
  simp [List.contains, List.elem_iff]

theorem any_congr {α : Type} {p q : α → Bool} (l : List α) (h : ∀ x ∈ l, p x = q x) :
    l.any p = l.any q := by
  induction l with
  | nil => rfl
  | cons x xs ih =>
    simp only [List.any_cons]
    rw [h x (List.mem_cons_self x xs), ih fun y hy => h y (List.mem_cons_of_mem x hy)]

theorem splitChars_ne_nil (sep : Char) (cs : List Char) : splitChars sep cs ≠ [] := by
  cases cs with
  | nil => simp [splitChars]
  | cons c cs =>
    simp only [splitChars]
    split <;> split <;> simp

theorem splitChars_of_not_mem (sep : Char) (l : List Char) (h : sep ∉ l) :
    splitChars sep l = [l] := by
  induction l with
  | nil => rfl
  | cons c cs ih =>
    have hc : (c == sep) = false := by
      rw [beq_eq_false_iff_ne]
      intro he
      exact h (he ▸ List.mem_cons_self c cs)
    have ih2 := ih fun hm => h (List.mem_cons_of_mem c hm)
    simp [splitChars, ih2, hc]

theorem splitChars_append_cons (sep : Char) (l r : List Char) (h : sep ∉ l) :
    splitChars sep (l ++ sep :: r) = l :: splitChars sep r := by
  induction l with
  | nil =>
    simp only [List.nil_append, splitChars]
    cases hr : splitChars sep r with
    | nil => exact absurd hr (splitChars_ne_nil sep r)
    | cons g gs => simp
  | cons c cs ih =>
    have hc : (c == sep) = false := by
      rw [beq_eq_false_iff_ne]
      intro he
      exact h (he ▸ List.mem_cons_self c cs)
    have ih2 := ih fun hm => h (List.mem_cons_of_mem c hm)
    simp [splitChars, ih2, hc]

theorem splitAtChar_eq_none (sep : Char) (cs : List Char) (h : sep ∉ cs) :
    splitAtChar sep cs = none := by
  induction cs with
  | nil => rfl
  | cons c cs ih =>
    have hc : (c == sep) = false := by
      rw [beq_eq_false_iff_ne]
      intro he
      exact h (he ▸ List.mem_cons_self c cs)
    have ih2 := ih fun hm => h (List.mem_cons_of_mem c hm)
    simp [splitAtChar, ih2, hc]

theorem splitAtChar_append_cons (sep : Char) (l r : List Char) (h : sep ∉ l) :
    splitAtChar sep (l ++ sep :: r) = some (l, r) := by
  induction l with
  | nil => simp [splitAtChar]
  | cons c cs ih =>
    have hc : (c == sep) = false := by
      rw [beq_eq_false_iff_ne]
      intro he
      exact h (he ▸ List.mem_cons_self c cs)
    have ih2 := ih fun hm => h (List.mem_cons_of_mem c hm)
    simp [splitAtChar, ih2, hc]

theorem splitAtChar_eq_some (sep : Char) (cs l r : List Char)
    (h : splitAtChar sep cs = some (l, r)) : cs = l ++ sep :: r ∧ sep ∉ l := by
  induction cs generalizing l r with
  | nil => simp [splitAtChar] at h
  | cons c cs ih =>
    simp only [splitAtChar] at h
    by_cases hc : (c == sep) = true
    · rw [if_pos hc] at h
      have hcs : c = sep := beq_iff_eq.mp hc
      simp only [Option.some.injEq, Prod.mk.injEq] at h
      obtain ⟨hl, hr⟩ := h
      subst hl
      subst hr
      simp [hcs]
    · rw [if_neg hc] at h
      cases hsc : splitAtChar sep cs with
      | none => rw [hsc] at h; simp at h
      | some p =>
        obtain ⟨l2, r2⟩ := p
        rw [hsc] at h
        simp only [Option.some.injEq, Prod.mk.injEq] at h
        obtain ⟨hl, hr⟩ := h
        obtain ⟨hcs2, hnot⟩ := ih l2 r2 hsc
        subst hl
        subst hr
        constructor
        · simp [hcs2]
        · intro hm
          rcases List.mem_cons.mp hm with he | hm2
          · exact absurd (beq_iff_eq.mpr he.symm) (by simpa using hc)
          · exact hnot hm2

theorem dotPat_eq_isPrefixOf (pat : List Char) (h : '.' ∉ pat) (cs : List Char) :
    dotPat pat cs = List.isPrefixOf pat cs := by
  induction pat generalizing cs with
  | nil => cases cs <;> rfl
  | cons p ps ih =>
    cases cs with
    | nil => rfl
    | cons c cs2 =>
      have hp : (p == '.') = false := by
        rw [beq_eq_false_iff_ne]
        intro he
        exact h (he ▸ List.mem_cons_self p ps)
      have ih2 := ih fun hm => h (List.mem_cons_of_mem p hm)
      simp [dotPat, List.isPrefixOf, hp, ih2]

/-! # C1 — end-to-end subordinate-scope authorization (evaluation) -/

/-- C1: at the exact scenario of the specification, the service-level
permission check is a literal membership test and does not accept the
scoped grant, so the composed decision denies the in-subtree church Ch1
as well as the out-of-subtree church Ch2 — even though the grammar-based
Role method would accept the permission, and the church-access half does
distinguish the two churches. The claim requires Allow on Ch1. -/
theorem authorize_subordinate_scenario_denied :
    hasPermission scenarioUser "users.create" = false
    ∧ roleHasPermission scenarioRole.permissions "users.create" = true
    ∧ canAccessChurch scenarioDB scenarioUser "Ch1" = true
    ∧ canAccessChurch scenarioDB scenarioUser "Ch2" = false
    ∧ authorizeOnChurch scenarioDB scenarioUser "users.create" "Ch1" = false
    ∧ authorizeOnChurch scenarioDB scenarioUser "users.create" "Ch2" = false := by
  decide

/-! # C3 — the hierarchy subtree tests are raw prefix tests (evaluation) -/

/-- C3: both church-route hierarchy tests accept a path that equals the
candidate and a path that extends it at the separator, but they also
accept a raw string extension such as A/BC under candidate A/B, which the
claim requires them to reject. -/
theorem hierarchy_filter_raw_matching :
    searchSubtreeTest "A/B" ⟨"e", "u", "c", "A/B", true⟩ = true
    ∧ searchSubtreeTest "A/B" ⟨"b", "u", "c", "A/B/C", true⟩ = true
    ∧ searchSubtreeTest "A/B" ⟨"x", "u", "c", "A/BC", true⟩ = true
    ∧ listQueryTest "A/B" ⟨"e", "u", "c", "A/B", true⟩ = true
    ∧ listQueryTest "A/B" ⟨"b", "u", "c", "A/B/C", true⟩ = true
    ∧ listQueryTest "A/B" ⟨"x", "u", "c", "A/BC", true⟩ = true := by
  decide

/-! # C7 — descendant counting interprets regex metacharacters (evaluation) -/

/-- C7: with a union path holding a dot, the unescaped count query matches
a church that is not a literal descendant, and the delete guard blocks on
it; the literal anchored count is zero, so the claim requires the deletion
to proceed. -/
theorem union_delete_regex_injection :
    churchCountQ injectionDB "A.B" = 1
    ∧ literalChurchDescCount injectionDB "A.B" = 0
    ∧ deleteUnion injectionDB "u1" = (DeleteOutcome.blocked "church" 1, injectionDB) := by
  decide

/-! # C2 — super-admin override -/

/-- C2 (amended): a super admin by flag or role passes every service-level
permission check, and the team-management middleware allows every non-null
team for a user whose direct isSuperAdmin flag is set; role-derived super
admins are not recognised there. -/
theorem superAdmin_override_amended (u : User) (p t : String) :
    (isSuperAdmin u = true → hasPermission u p = true)
    ∧ (u.isSuperAdmin = true → t ≠ "" → canManageService (some u) t = true) := by
  constructor
  · intro h
    simp [hasPermission, h]
  · intro hf ht
    have ht2 : (t == "") = false := by
      rw [beq_eq_false_iff_ne]
      exact ht
    simp [canManageService, ht2, hf]

/-- C2 (counterexample): a user holding a super_admin role assignment with
the direct flag unset is a super admin for the permission check, yet the
team-management middleware denies them, where the claim requires it to
allow every team. -/
theorem roleBased_superAdmin_service_denied :
    isSuperAdmin roleSuperUser = true
    ∧ hasPermission roleSuperUser "users.create" = true
    ∧ roleSuperUser.isSuperAdmin = false
    ∧ canManageService (some roleSuperUser) "t1" = false := by
  decide

/-! # Accumulator-set lemmas -/

theorem mem_insertId (s : List String) (x y : String) :
    y ∈ insertId s x ↔ y ∈ s ∨ y = x := by
  by_cases hx : x ∈ s
  · have hc : s.contains x = true := (contains_iff_mem s x).mpr hx
    simp only [insertId]
    rw [if_pos hc]
    constructor
    · exact Or.inl
    · rintro (hy | rfl)
      · exact hy
      · exact hx
  · have hc : ¬s.contains x = true := fun h => hx ((contains_iff_mem s x).mp h)
    simp only [insertId]
    rw [if_neg hc]
    simp [List.mem_append]

theorem nodup_insertId (s : List String) (x : String) (h : s.Nodup) :
    (insertId s x).Nodup := by
  by_cases hx : x ∈ s
  · have hc : s.contains x = true := (contains_iff_mem s x).mpr hx
    simp only [insertId]
    rw [if_pos hc]
    exact h
  · have hc : ¬s.contains x = true := fun h2 => hx ((contains_iff_mem s x).mp h2)
    simp only [insertId]
    rw [if_neg hc]
    rw [List.nodup_append]
    refine ⟨h, List.nodup_singleton x, ?_⟩
    intro y hy hmem
    rw [List.mem_singleton] at hmem
    exact hx (hmem ▸ hy)

theorem mem_addAll (xs s : List String) (y : String) :
    y ∈ addAll s xs ↔ y ∈ s ∨ y ∈ xs := by
  induction xs generalizing s with
  | nil => simp [addAll]
  | cons x xs ih =>
    simp only [addAll, List.foldl_cons]
    rw [show List.foldl insertId (insertId s x) xs = addAll (insertId s x) xs from rfl]
    rw [ih (insertId s x), mem_insertId, List.mem_cons]
    tauto

theorem nodup_addAll (xs s : List String) (h : s.Nodup) : (addAll s xs).Nodup := by
  induction xs generalizing s with
  | nil => exact h
  | cons x xs ih => exact ih _ (nodup_insertId _ _ h)

theorem foldl_nodup {α : Type} (f : List String → α → List String) (l : List α)
    (hf : ∀ s a, s.Nodup → (f s a).Nodup) :
    ∀ s, s.Nodup → (l.foldl f s).Nodup := by
  induction l with
  | nil => intro s h; exact h
  | cons x xs ih => intro s h; exact ih _ (hf s x h)

theorem foldl_mem_bound {α : Type} (f : List String → α → List String) (l : List α)
    (P : String → Prop)
    (hf : ∀ s a y, y ∈ f s a → y ∈ s ∨ P y) :
    ∀ s y, y ∈ l.foldl f s → y ∈ s ∨ P y := by
  induction l with
  | nil => intro s y h; exact Or.inl h
  | cons x xs ih =>
    intro s y h
    rcases ih (f s x) y h with h2 | h2
    · exact hf s x y h2
    · exact Or.inr h2

/-! # C6 — accessible-entity sets -/

/-- C6 (amended): the accessible-conference and accessible-church lists
never hold a duplicate id (assuming the database keys are unique, which is
what the unique Mongo id gives the super-admin branches); the super-admin
branches list only active entities; and the church list holds only active
churches whenever the user has no direct church assignment. Activity is
not checked for directly assigned entities nor for conferences reached
from union or church assignments. -/
theorem access_sets_amended (db : DB) (u : User) :
    ((db.conferences.map (·.id)).Nodup → (getUserConferenceAccess db u).Nodup)
    ∧ ((db.churches.map (·.id)).Nodup → (getUserChurchAccess db u).Nodup)
    ∧ (isSuperAdmin u = true →
        (∀ i ∈ getUserConferenceAccess db u, ∃ c ∈ db.conferences, c.id = i ∧ c.isActive = true)
        ∧ (∀ i ∈ getUserChurchAccess db u, ∃ c ∈ db.churches, c.id = i ∧ c.isActive = true))
    ∧ (u.churchAssignments = [] →
        ∀ i ∈ getUserChurchAccess db u, ∃ c ∈ db.churches, c.id = i ∧ c.isActive = true) := by
  have hsubc :
      ∀ (l : List Conference) (p : Conference → Bool),
        (l.map (·.id)).Nodup → ((l.filter p).map (·.id)).Nodup :=
    fun l p h => ((List.filter_sublist l).map (·.id)).nodup h
  have hsubch :
      ∀ (l : List Church) (p : Church → Bool),
        (l.map (·.id)).Nodup → ((l.filter p).map (·.id)).Nodup :=
    fun l p h => ((List.filter_sublist l).map (·.id)).nodup h
  have hactive :
      ∀ (l : List Church) (q : Church → Bool) (i : String),
        i ∈ (l.filter (fun ch => q ch && ch.isActive)).map (·.id) →
        ∃ c ∈ l, c.id = i ∧ c.isActive = true := by
    intro l q i hi
    rcases List.mem_map.mp hi with ⟨c, hc, rfl⟩
    rcases List.mem_filter.mp hc with ⟨hcl, hq⟩
    have hq2 : q c = true ∧ c.isActive = true := by simpa using hq
    exact ⟨c, hcl, rfl, hq2.2⟩
  refine ⟨?_, ?_, ?_, ?_⟩
  · intro hdb
    by_cases hsa : isSuperAdmin u = true
    · simpa [getUserConferenceAccess, hsa] using hsubc db.conferences (·.isActive) hdb
    · have hsa2 : isSuperAdmin u = false := by simpa using hsa
      simp only [getUserConferenceAccess, hsa2, Bool.false_eq_true, if_false]
      apply foldl_nodup _ _ fun s a h => by
        cases hf : db.churches.find? (fun c => c.id == a.entity) with
        | none => simpa [hf] using h
        | some c => simpa [hf] using nodup_insertId s c.conferenceId h
      apply foldl_nodup _ _ fun s a h => nodup_insertId s a.entity h
      apply foldl_nodup _ _ fun s a h => nodup_addAll _ s h
      exact List.nodup_nil
  · intro hdb
    by_cases hsa : isSuperAdmin u = true
    · simpa [getUserChurchAccess, hsa] using hsubch db.churches (·.isActive) hdb
    · have hsa2 : isSuperAdmin u = false := by simpa using hsa
      simp only [getUserChurchAccess, hsa2, Bool.false_eq_true, if_false]
      apply foldl_nodup _ _ fun s a h => nodup_insertId s a.entity h
      apply foldl_nodup _ _ fun s a h => nodup_addAll _ s h
      apply foldl_nodup _ _ fun s a h =>
        foldl_nodup _ _ (fun s2 conf h2 => nodup_addAll _ s2 h2) s h
      exact List.nodup_nil
  · intro hsa
    constructor
    · intro i hi
      simp only [getUserConferenceAccess, hsa, if_true] at hi
      rcases List.mem_map.mp hi with ⟨c, hc, rfl⟩
      rcases List.mem_filter.mp hc with ⟨hcl, hact⟩
      exact ⟨c, hcl, rfl, hact⟩
    · intro i hi
      simp only [getUserChurchAccess, hsa, if_true] at hi
      rcases List.mem_map.mp hi with ⟨c, hc, rfl⟩
      rcases List.mem_filter.mp hc with ⟨hcl, hact⟩
      exact ⟨c, hcl, rfl, hact⟩
  · intro hch i hi
    by_cases hsa : isSuperAdmin u = true
    · simp only [getUserChurchAccess, hsa, if_true] at hi
      rcases List.mem_map.mp hi with ⟨c, hc, rfl⟩
      rcases List.mem_filter.mp hc with ⟨hcl, hact⟩
      exact ⟨c, hcl, rfl, hact⟩
    · have hsa2 : isSuperAdmin u = false := by simpa using hsa
      simp only [getUserChurchAccess, hsa2, Bool.false_eq_true, if_false, hch,
        List.foldl_nil] at hi
      have hstep2 := foldl_mem_bound
        (fun s a =>
          addAll s
            ((db.churches.filter
              (fun ch => ch.conferenceId == a.entity && ch.isActive)).map (·.id)))
        u.conferenceAssignments
        (fun y => ∃ c ∈ db.churches, c.id = y ∧ c.isActive = true)
        (by
          intro s a y hy
          rcases (mem_addAll _ s y).mp hy with h2 | h2
          · exact Or.inl h2
          · exact Or.inr (hactive db.churches (fun ch => ch.conferenceId == a.entity) y h2))
      rcases hstep2 _ i hi with h3 | h3
      · have hstep1 := foldl_mem_bound
          (fun s a =>
            (db.conferences.filter (fun c => c.unionId == a.entity && c.isActive)).foldl
              (fun s2 conf =>
                addAll s2
                  ((db.churches.filter
                    (fun ch => ch.conferenceId == conf.id && ch.isActive)).map (·.id))) s)
          u.unionAssignments
          (fun y => ∃ c ∈ db.churches, c.id = y ∧ c.isActive = true)
          (by
            intro s a y hy
            exact foldl_mem_bound _ _ _
              (by
                intro s2 conf y2 hy2
                rcases (mem_addAll _ s2 y2).mp hy2 with h4 | h4
                · exact Or.inl h4
                · exact Or.inr
                    (hactive db.churches (fun ch => ch.conferenceId == conf.id) y2 h4))
              s y hy)
        rcases hstep1 [] i h3 with h5 | h5
        · exact absurd h5 (List.not_mem_nil i)
        · exact h5
      · exact h3

/-- C6 (counterexample): a user whose only assignment is a direct
conference assignment to an inactive conference receives that conference
id in the accessible set, although the claim requires every returned id to
be an active entity. -/
theorem conference_access_returns_inactive :
    getUserConferenceAccess inactiveConfDB confAssignUser = ["c1"]
    ∧ isSuperAdmin confAssignUser = false
    ∧ (∀ c ∈ inactiveConfDB.conferences, c.id = "c1" ∧ c.isActive = false) := by
  decide

/-! # C10 — canAccessUser edge behaviour -/

/-- C10 (amended): a requester with a non-empty id can always access their
own id; a missing target is denied unless the requester is a super admin
or asks for their own id, both of which are answered before the lookup; a
target that exists but holds no union, conference or church assignment is
denied for every requester who is neither a super admin nor the target
themself. -/
theorem canAccessUser_edges_amended (db : DB) (u : User) (tid : String) (target : User) :
    (u.id ≠ "" → canAccessUser db u u.id = true)
    ∧ (tid ≠ "" → isSuperAdmin u = false → u.id ≠ tid →
        db.users.find? (fun t => t.id == tid) = none → canAccessUser db u tid = false)
    ∧ (tid ≠ "" → isSuperAdmin u = false → u.id ≠ tid →
        db.users.find? (fun t => t.id == tid) = some target →
        target.unionAssignments = [] → target.conferenceAssignments = [] →
        target.churchAssignments = [] → canAccessUser db u tid = false) := by
  refine ⟨?_, ?_, ?_⟩
  · intro hne
    have h1 : (u.id == "") = false := beq_eq_false_iff_ne.mpr hne
    by_cases hsa : isSuperAdmin u = true
    · simp [canAccessUser, h1, hsa]
    · have hsa2 : isSuperAdmin u = false := by simpa using hsa
      simp [canAccessUser, h1, hsa2]
  · intro hne hsa hneq hfind
    have h1 : (tid == "") = false := beq_eq_false_iff_ne.mpr hne
    have h2 : (u.id == tid) = false := beq_eq_false_iff_ne.mpr hneq
    simp [canAccessUser, h1, hsa, h2, hfind]
  · intro hne hsa hneq hfind hu hc hch
    have h1 : (tid == "") = false := beq_eq_false_iff_ne.mpr hne
    have h2 : (u.id == tid) = false := beq_eq_false_iff_ne.mpr hneq
    simp [canAccessUser, h1, hsa, h2, hfind, hu, hc, hch]

/-- C10 (counterexample): a super admin asking about an id that no user
document carries is allowed before the target lookup, although the claim
requires a missing target to be denied. -/
theorem canAccessUser_superadmin_missing_target :
    canAccessUser emptyDB flagSuperUser "missing" = true ∧ emptyDB.users = [] := by
  decide

/-! # C4 — leaf-first soft-delete guards -/

/-- C4 (amended): the union guard checks conferences, churches, teams and
then services, blocks on the first level whose blocking count is non-zero,
names that level and that count, and leaves the database unchanged; only
when all four counts are zero is the union soft-deleted, and the only
change is that union isActive flag. Blocking means active for the first
three levels and not archived for services. The church guard blocks on
active teams of the church and otherwise soft-deletes the church. For a
root path free of regex metacharacters the path-based counts are exactly
the literal separator-anchored prefix counts. -/
theorem delete_guard_amended (db : DB) (id p : String) (un : UnionRec) (ch : Church) :
    (db.unions.find? (fun x => x.id == id) = some un → un.isActive = true →
      (confCountQ db un.id ≠ 0 →
        deleteUnion db id = (DeleteOutcome.blocked "conference" (confCountQ db un.id), db))
      ∧ (confCountQ db un.id = 0 → churchCountQ db un.hierarchyPath ≠ 0 →
          deleteUnion db id =
            (DeleteOutcome.blocked "church" (churchCountQ db un.hierarchyPath), db))
      ∧ (confCountQ db un.id = 0 → churchCountQ db un.hierarchyPath = 0 →
          teamCountQ db un.hierarchyPath ≠ 0 →
          deleteUnion db id =
            (DeleteOutcome.blocked "team" (teamCountQ db un.hierarchyPath), db))
      ∧ (confCountQ db un.id = 0 → churchCountQ db un.hierarchyPath = 0 →
          teamCountQ db un.hierarchyPath = 0 → serviceCountQ db un.hierarchyPath ≠ 0 →
          deleteUnion db id =
            (DeleteOutcome.blocked "service" (serviceCountQ db un.hierarchyPath), db))
      ∧ (confCountQ db un.id = 0 → churchCountQ db un.hierarchyPath = 0 →
          teamCountQ db un.hierarchyPath = 0 → serviceCountQ db un.hierarchyPath = 0 →
          deleteUnion db id =
            (DeleteOutcome.deleted,
              { db with
                unions := db.unions.map fun x =>
                  if x.id == id then { x with isActive := false } else x })))
    ∧ (db.churches.find? (fun x => x.id == id) = some ch →
        (churchTeamCountQ db id ≠ 0 →
          deleteChurch db id = (DeleteOutcome.blocked "team" (churchTeamCountQ db id), db))
        ∧ (churchTeamCountQ db id = 0 →
            deleteChurch db id =
              (DeleteOutcome.deleted,
                { db with
                  churches := db.churches.map fun x =>
                    if x.id == id then { x with isActive := false } else x })))
    ∧ ('.' ∉ p.data →
        churchCountQ db p = literalChurchDescCount db p
        ∧ teamCountQ db p =
            (db.teams.filter
              (fun t => jsStartsWith t.hierarchyPath (p ++ "/") && t.isActive)).length
        ∧ serviceCountQ db p =
            (db.services.filter
              (fun s =>
                jsStartsWith s.hierarchyPath (p ++ "/") && s.status != "archived")).length) := by
  refine ⟨?_, ?_, ?_⟩
  · intro hfind hact
    refine ⟨?_, ?_, ?_, ?_, ?_⟩
    · intro h1
      simp [deleteUnion, hfind, hact, Nat.pos_of_ne_zero h1]
    · intro h1 h2
      simp [deleteUnion, hfind, hact, h1, Nat.pos_of_ne_zero h2]
    · intro h1 h2 h3
      simp [deleteUnion, hfind, hact, h1, h2, Nat.pos_of_ne_zero h3]
    · intro h1 h2 h3 h4
      simp [deleteUnion, hfind, hact, h1, h2, h3, Nat.pos_of_ne_zero h4]
    · intro h1 h2 h3 h4
      simp [deleteUnion, hfind, hact, h1, h2, h3, h4]
  · intro hfind
    refine ⟨?_, ?_⟩
    · intro h1
      simp [deleteChurch, hfind, Nat.pos_of_ne_zero h1]
    · intro h1
      simp [deleteChurch, hfind, h1]
  · intro hp
    have hp2 : '.' ∉ (p ++ "/").data := by
      rw [String.data_append]
      intro hm
      rcases List.mem_append.mp hm with hm2 | hm2
      · exact hp hm2
      · simp at hm2
    have hre : ∀ s : String, caretRegexTest (p ++ "/") s = jsStartsWith s (p ++ "/") :=
      fun s => dotPat_eq_isPrefixOf (p ++ "/").data hp2 s.data
    refine ⟨?_, ?_, ?_⟩
    · unfold churchCountQ literalChurchDescCount
      congr 1
      apply List.filter_congr
      intro c _
      rw [hre c.hierarchyPath]
    · unfold teamCountQ
      congr 1
      apply List.filter_congr
      intro t _
      rw [hre t.hierarchyPath]
    · unfold serviceCountQ
      congr 1
      apply List.filter_congr
      intro s _
      rw [hre s.hierarchyPath]

/-- C4 (counterexample): a union whose only remaining descendant records
are one active and one inactive service is blocked with the count two,
while the active-descendant count at the service level is one — the named
count is the non-archived count, not the active count. -/
theorem union_delete_blocked_by_inactive_service :
    deleteUnion inactiveServiceDB "u1" = (DeleteOutcome.blocked "service" 2, inactiveServiceDB)
    ∧ activeServiceDescCount inactiveServiceDB "U1" = 1 := by
  decide

/-! # System-role upsert lemmas -/

theorem applyRoleUpdate_idem (r : Role) (rd : RoleData) :
    applyRoleUpdate (applyRoleUpdate r rd) rd = applyRoleUpdate r rd := rfl

theorem roleOfData_fix (rd : RoleData) :
    applyRoleUpdate (roleOfData rd) rd = roleOfData rd := rfl

theorem updateFirstRole_map_name (t : List Role) (rd : RoleData) :
    (updateFirstRole t rd).map (·.name) = t.map (·.name) := by
  induction t with
  | nil => rfl
  | cons r rs ih =>
    by_cases h : (r.name == rd.name) = true
    · have he : r.name = rd.name := beq_iff_eq.mp h
      simp [updateFirstRole, h, applyRoleUpdate, he]
    · have h2 : (r.name == rd.name) = false := by simpa using h
      simp [updateFirstRole, h2, ih]

theorem any_name_updateFirstRole (t : List Role) (rd rd2 : RoleData) :
    (updateFirstRole t rd).any (fun r => r.name == rd2.name)
      = t.any (fun r => r.name == rd2.name) := by
  induction t with
  | nil => rfl
  | cons r rs ih =>
    by_cases h : (r.name == rd.name) = true
    · have he : r.name = rd.name := beq_iff_eq.mp h
      simp [updateFirstRole, h, List.any_cons, applyRoleUpdate, he]
    · have h2 : (r.name == rd.name) = false := by simpa using h
      simp [updateFirstRole, h2, List.any_cons, ih]

theorem updateFirstRole_idem (t : List Role) (rd : RoleData) :
    updateFirstRole (updateFirstRole t rd) rd = updateFirstRole t rd := by
  induction t with
  | nil => rfl
  | cons r rs ih =>
    by_cases h : (r.name == rd.name) = true
    · have hn : ((applyRoleUpdate r rd).name == rd.name) = true := by
        simp [applyRoleUpdate]
      simp [updateFirstRole, h, hn, applyRoleUpdate_idem]
    · have h2 : (r.name == rd.name) = false := by simpa using h
      simp [updateFirstRole, h2, ih]

theorem updateFirstRole_append_left (t l : List Role) (rd : RoleData)
    (h : t.any (fun r => r.name == rd.name) = true) :
    updateFirstRole (t ++ l) rd = updateFirstRole t rd ++ l := by
  induction t with
  | nil => simp at h
  | cons r rs ih =>
    by_cases hr : (r.name == rd.name) = true
    · simp [updateFirstRole, hr]
    · have hr2 : (r.name == rd.name) = false := by simpa using hr
      have h3 : rs.any (fun r => r.name == rd.name) = true := by
        simpa [List.any_cons, hr2] using h
      simp [updateFirstRole, hr2, ih h3]

theorem updateFirstRole_append_right (t l : List Role) (rd : RoleData)
    (h : t.any (fun r => r.name == rd.name) = false) :
    updateFirstRole (t ++ l) rd = t ++ updateFirstRole l rd := by
  induction t with
  | nil => rfl
  | cons r rs ih =>
    have hparts : (r.name == rd.name) = false ∧ rs.any (fun r => r.name == rd.name) = false := by
      simpa [List.any_cons] using h
    simp [updateFirstRole, hparts.1, ih hparts.2]

theorem upsertRole_of_settled (t : List Role) (rd : RoleData) (h : RoleSettled t rd) :
    upsertRole t rd = t := by
  unfold upsertRole
  rw [if_pos h.1]
  exact h.2

theorem upsertRole_settled_self (t : List Role) (rd : RoleData) :
    RoleSettled (upsertRole t rd) rd := by
  by_cases hany : t.any (fun r => r.name == rd.name) = true
  · unfold upsertRole
    rw [if_pos hany]
    exact ⟨by rw [any_name_updateFirstRole]; exact hany, updateFirstRole_idem t rd⟩
  · have hany2 : t.any (fun r => r.name == rd.name) = false := by simpa using hany
    unfold upsertRole
    rw [if_neg hany]
    constructor
    · simp [List.any_append, roleOfData]
    · rw [updateFirstRole_append_right t _ rd hany2]
      have hx : ((roleOfData rd).name == rd.name) = true := by simp [roleOfData]
      simp [updateFirstRole, hx, roleOfData_fix]

theorem updateFirstRole_comm_settled (t : List Role) (rd rd2 : RoleData)
    (hne : rd2.name ≠ rd.name) (hs : updateFirstRole t rd = t) :
    updateFirstRole (updateFirstRole t rd2) rd = updateFirstRole t rd2 := by
  induction t with
  | nil => rfl
  | cons r rs ih =>
    by_cases h2 : (r.name == rd2.name) = true
    · have hrname : r.name = rd2.name := beq_iff_eq.mp h2
      have hnot : ((applyRoleUpdate r rd2).name == rd.name) = false := by
        simp only [applyRoleUpdate]
        exact beq_eq_false_iff_ne.mpr hne
      have hrrd : (r.name == rd.name) = false := by
        rw [hrname]
        exact beq_eq_false_iff_ne.mpr hne
      have hs2 : updateFirstRole rs rd = rs := by
        have h0 := hs
        simp only [updateFirstRole, hrrd, Bool.false_eq_true, if_false,
          List.cons.injEq] at h0
        exact h0.2
      simp [updateFirstRole, h2, hnot, hs2]
    · have h2f : (r.name == rd2.name) = false := by simpa using h2
      by_cases hr : (r.name == rd.name) = true
      · have hfix : applyRoleUpdate r rd = r := by
          have h0 := hs
          simp only [updateFirstRole, hr, if_true, List.cons.injEq] at h0
          exact h0.1
        simp [updateFirstRole, h2f, hr, hfix]
      · have hrf : (r.name == rd.name) = false := by simpa using hr
        have hs2 : updateFirstRole rs rd = rs := by
          have h0 := hs
          simp only [updateFirstRole, hrf, Bool.false_eq_true, if_false,
            List.cons.injEq] at h0
          exact h0.2
        simp [updateFirstRole, h2f, hrf, ih hs2]

theorem upsertRole_settled_other (t : List Role) (rd rd2 : RoleData)
    (hne : rd2.name ≠ rd.name) (h : RoleSettled t rd) :
    RoleSettled (upsertRole t rd2) rd := by
  by_cases hany : t.any (fun r => r.name == rd2.name) = true
  · unfold upsertRole
    rw [if_pos hany]
    constructor
    · rw [any_name_updateFirstRole]
      exact h.1
    · exact updateFirstRole_comm_settled t rd rd2 hne h.2
  · have hany2 : t.any (fun r => r.name == rd2.name) = false := by simpa using hany
    unfold upsertRole
    rw [if_neg hany]
    constructor
    · obtain ⟨x, hx, hbeq⟩ := List.any_eq_true.mp h.1
      simp only [List.any_append, Bool.or_eq_true]
      exact Or.inl (List.any_eq_true.mpr ⟨x, hx, hbeq⟩)
    · rw [updateFirstRole_append_left t _ rd h.1, h.2]

theorem foldl_upsert_preserves (l : List RoleData) (rd : RoleData)
    (hl : ∀ y ∈ l, y.name ≠ rd.name) :
    ∀ t, RoleSettled t rd → RoleSettled (l.foldl upsertRole t) rd := by
  induction l with
  | nil => intro t h; exact h
  | cons x xs ih =>
    intro t h
    exact ih (fun y hy => hl y (List.mem_cons_of_mem x hy)) _
      (upsertRole_settled_other t rd x (hl x (List.mem_cons_self x xs)) h)

theorem foldl_upsert_settled (l : List RoleData)
    (hp : l.Pairwise (fun a b => a.name ≠ b.name)) :
    ∀ t, ∀ rd ∈ l, RoleSettled (l.foldl upsertRole t) rd := by
  induction l with
  | nil => intro t rd h; simp at h
  | cons x xs ih =>
    intro t rd hrd
    rw [List.pairwise_cons] at hp
    rcases List.mem_cons.mp hrd with rfl | hmem
    · simp only [List.foldl_cons]
      exact foldl_upsert_preserves xs rd (fun y hy => (hp.1 y hy).symm) _
        (upsertRole_settled_self t rd)
    · simp only [List.foldl_cons]
      exact ih hp.2 _ rd hmem

theorem foldl_upsert_id (l : List RoleData) :
    ∀ t, (∀ rd ∈ l, RoleSettled t rd) → l.foldl upsertRole t = t := by
  induction l with
  | nil => intro t _; rfl
  | cons x xs ih =>
    intro t h
    simp only [List.foldl_cons]
    rw [upsertRole_of_settled t x (h x (List.mem_cons_self x xs))]
    exact ih t fun rd hrd => h rd (List.mem_cons_of_mem x hrd)

theorem systemRoleData_names_pairwise :
    systemRoleData.Pairwise (fun a b => a.name ≠ b.name) := by
  decide

theorem upsertRole_nodup (t : List Role) (rd : RoleData)
    (h : (t.map (·.name)).Nodup) : ((upsertRole t rd).map (·.name)).Nodup := by
  by_cases hany : t.any (fun r => r.name == rd.name) = true
  · unfold upsertRole
    rw [if_pos hany, updateFirstRole_map_name]
    exact h
  · have hany2 : t.any (fun r => r.name == rd.name) = false := by simpa using hany
    unfold upsertRole
    rw [if_neg hany, List.map_append, List.nodup_append]
    refine ⟨h, by simp, ?_⟩
    intro y hy hmem
    have hyname : y = rd.name := by simpa [roleOfData] using hmem
    rcases List.mem_map.mp hy with ⟨r, hr, hre⟩
    have : (r.name == rd.name) = true := beq_iff_eq.mpr (by rw [hre, hyname])
    have : t.any (fun r => r.name == rd.name) = true := List.any_eq_true.mpr ⟨r, hr, this⟩
    exact absurd this hany

/-! # C8 — createSystemRoles is idempotent -/

/-- C8: re-running the system-role seeding is a no-op on any table the
first run produced, and the upsert keyed by the unique role name never
introduces a duplicate name. -/
theorem createSystemRoles_idempotent (t : List Role) :
    createSystemRoles (createSystemRoles t) = createSystemRoles t
    ∧ ((t.map (·.name)).Nodup → ((createSystemRoles t).map (·.name)).Nodup) := by
  constructor
  · exact foldl_upsert_id systemRoleData _ fun rd hrd =>
      foldl_upsert_settled systemRoleData systemRoleData_names_pairwise t rd hrd
  · intro h
    unfold createSystemRoles
    have hgen : ∀ (l : List RoleData) (t0 : List Role),
        (t0.map (·.name)).Nodup → ((l.foldl upsertRole t0).map (·.name)).Nodup := by
      intro l
      induction l with
      | nil => intro t0 h0; exact h0
      | cons x xs ih => intro t0 h0; exact ih _ (upsertRole_nodup t0 x h0)
    exact hgen systemRoleData t h

/-! # Permission-grammar lemmas -/

theorem wordChars_iff (cs : List Char) : wordChars cs = true ↔ WordL cs := by
  simp only [wordChars, WordL, Bool.and_eq_true, Bool.not_eq_true', List.all_eq_true]
  constructor
  · rintro ⟨h1, h2⟩
    exact ⟨by simpa [List.isEmpty_iff] using h1, h2⟩
  · rintro ⟨h1, h2⟩
    exact ⟨by simpa [List.isEmpty_iff] using h1, h2⟩

theorem wordL_not_mem (cs : List Char) (h : WordL cs) (c : Char)
    (hc : isPermChar c = false) : c ∉ cs :=
  fun hm => absurd (h.2 c hm) (by simp [hc])

theorem actL_not_mem {act : List Char} (h : WordL act ∨ act = ['*']) :
    '.' ∉ act ∧ ':' ∉ act := by
  rcases h with h | rfl
  · exact ⟨wordL_not_mem act h '.' (by decide), wordL_not_mem act h ':' (by decide)⟩
  · constructor <;> decide

theorem validPermissionChars_eq_of_split (cs res rest : List Char)
    (h : splitAtChar '.' cs = some (res, rest)) :
    validPermissionChars cs = (wordChars res && validActScope rest) := by
  unfold validPermissionChars
  rw [h]

theorem validActScope_eq_none (cs : List Char) (h : splitAtChar ':' cs = none) :
    validActScope cs = (wordChars cs || cs == ['*']) := by
  unfold validActScope
  rw [h]

theorem validActScope_eq_some (cs act sc : List Char)
    (h : splitAtChar ':' cs = some (act, sc)) :
    validActScope cs = ((wordChars act || act == ['*']) && wordChars sc) := by
  unfold validActScope
  rw [h]

theorem validPermissionChars_iff (cs : List Char) :
    validPermissionChars cs = true ↔ PermGrammar cs := by
  constructor
  · intro h
    unfold validPermissionChars at h
    cases hsp : splitAtChar '.' cs with
    | none => rw [hsp] at h; simp at h
    | some pr =>
      obtain ⟨res, rest⟩ := pr
      rw [hsp] at h
      obtain ⟨hcseq, _⟩ := splitAtChar_eq_some '.' cs res rest hsp
      have hand : wordChars res = true ∧ validActScope rest = true := by simpa using h
      have hres : WordL res := (wordChars_iff res).mp hand.1
      have hva := hand.2
      unfold validActScope at hva
      cases hsc : splitAtChar ':' rest with
      | none =>
        rw [hsc] at hva
        have h2 : wordChars rest = true ∨ rest = ['*'] := by simpa using hva
        refine ⟨res, rest, hres, ?_, Or.inl hcseq⟩
        rcases h2 with h2 | h2
        · exact Or.inl ((wordChars_iff rest).mp h2)
        · exact Or.inr h2
      | some pr2 =>
        obtain ⟨act, sc⟩ := pr2
        rw [hsc] at hva
        obtain ⟨hresteq, _⟩ := splitAtChar_eq_some ':' rest act sc hsc
        have hand2 : (wordChars act = true ∨ act = ['*']) ∧ wordChars sc = true := by
          simpa using hva
        refine ⟨res, act, hres, ?_, Or.inr ⟨sc, (wordChars_iff sc).mp hand2.2, ?_⟩⟩
        · rcases hand2.1 with h2 | h2
          · exact Or.inl ((wordChars_iff act).mp h2)
          · exact Or.inr h2
        · rw [hcseq, hresteq]
          simp
  · rintro ⟨res, act, hres, hact, hforms⟩
    have hdotres : '.' ∉ res := wordL_not_mem res hres '.' (by decide)
    have hactn := actL_not_mem hact
    have hword : wordChars res = true := (wordChars_iff res).mpr hres
    rcases hforms with rfl | ⟨sc, hsc, rfl⟩
    · rw [validPermissionChars_eq_of_split _ res act
        (splitAtChar_append_cons '.' res act hdotres)]
      rw [validActScope_eq_none act (splitAtChar_eq_none ':' act hactn.2)]
      rcases hact with h2 | rfl
      · simp [hword, (wordChars_iff act).mpr h2]
      · simp [hword]
    · have hshape : res ++ '.' :: act ++ ':' :: sc = res ++ '.' :: (act ++ ':' :: sc) := by
        simp
      rw [hshape]
      rw [validPermissionChars_eq_of_split _ res (act ++ ':' :: sc)
        (splitAtChar_append_cons '.' res _ hdotres)]
      rw [validActScope_eq_some _ act sc (splitAtChar_append_cons ':' act sc hactn.2)]
      have h3 : wordChars sc = true := (wordChars_iff sc).mpr hsc
      rcases hact with h2 | rfl
      · simp [hword, h3, (wordChars_iff act).mpr h2]
      · simp [hword, h3]

/-! # C9 — Role permission validation -/

/-- C9: the pre-save regex accepts exactly the permission grammar; the
collected invalid entries are exactly the permission entries that are
neither the lone star nor grammatical; a save with any such entry aborts
with the error message joining exactly those entries and leaves the table
untouched; a save whose entries all pass is not rejected by this
validation and persists the document. -/
theorem role_permission_validation (t : List Role) (r : Role) (s p : String) :
    (validPermissionChars s.data = true ↔ PermGrammar s.data)
    ∧ (p ∈ invalidPermissionsOf r.permissions ↔
        p ∈ r.permissions ∧ ¬(p = "*" ∨ PermGrammar p.data))
    ∧ (invalidPermissionsOf r.permissions ≠ [] →
        saveRole t r =
          (t, some ("Invalid permission format: " ++
            String.intercalate ", " (invalidPermissionsOf r.permissions))))
    ∧ (invalidPermissionsOf r.permissions = [] → saveRole t r = (writeRole t r, none)) := by
  refine ⟨validPermissionChars_iff s.data, ?_, ?_, ?_⟩
  · unfold invalidPermissionsOf
    rw [List.mem_filter]
    constructor
    · rintro ⟨hmem, hb⟩
      have hb2 : (p == "*") = false ∧ validPermissionChars p.data = false := by
        simpa using hb
      refine ⟨hmem, ?_⟩
      rintro (rfl | hg)
      · simp at hb2
      · rw [(validPermissionChars_iff p.data).mpr hg] at hb2
        exact absurd hb2.2 (by simp)
    · rintro ⟨hmem, hn⟩
      refine ⟨hmem, ?_⟩
      have h1 : (p == "*") = false := beq_eq_false_iff_ne.mpr fun he => hn (Or.inl he)
      have h2 : validPermissionChars p.data = false := by
        cases hv : validPermissionChars p.data
        · rfl
        · exact absurd (Or.inr ((validPermissionChars_iff p.data).mp hv)) hn
      simp [h1, h2]
  · intro hne
    unfold saveRole
    rw [if_neg (by simpa [List.isEmpty_iff] using hne)]
  · intro heq
    unfold saveRole
    rw [if_pos (by simp [List.isEmpty_iff, heq])]

/-! # Role.hasPermission against the reference matcher -/

theorem mk_beq_mk (x y : List Char) : (String.mk x == String.mk y) = (x == y) := by
  rw [Bool.eq_iff_iff, beq_iff_eq, beq_iff_eq, String.ext_iff]

theorem some_beq_some (x y : List Char) : ((some x == some y) : Bool) = (x == y) := by
  rw [Bool.eq_iff_iff, beq_iff_eq, beq_iff_eq, Option.some.injEq]

theorem roleHasPermission_wild (perms : List String) (required : String)
    (hne : perms ≠ []) (h1 : (perms.contains "*" || perms.contains "all") = true) :
    roleHasPermission perms required = true := by
  unfold roleHasPermission
  rw [if_neg (by simpa [List.isEmpty_iff] using hne), if_pos h1]

theorem roleHasPermission_verbatim (perms : List String) (required : String)
    (hne : perms ≠ []) (h1 : (perms.contains "*" || perms.contains "all") = false)
    (h2 : perms.contains required = true) :
    roleHasPermission perms required = true := by
  unfold roleHasPermission
  rw [if_neg (by simpa [List.isEmpty_iff] using hne), if_neg (by rw [h1]; simp), if_pos h2]

theorem roleHasPermission_resWild (perms : List String) (required : String)
    (hne : perms ≠ []) (h1 : (perms.contains "*" || perms.contains "all") = false)
    (h2 : perms.contains required = false)
    (h3 : perms.contains ((jsSplit required '.').headD "" ++ ".*") = true) :
    roleHasPermission perms required = true := by
  unfold roleHasPermission
  rw [if_neg (by simpa [List.isEmpty_iff] using hne), if_neg (by rw [h1]; simp),
    if_neg (by rw [h2]; simp), if_pos h3]

theorem roleHasPermission_else (perms : List String) (required : String)
    (hne : perms ≠ []) (h1 : (perms.contains "*" || perms.contains "all") = false)
    (h2 : perms.contains required = false)
    (h3 : perms.contains ((jsSplit required '.').headD "" ++ ".*") = false) :
    roleHasPermission perms required
      = perms.any
          (scopedEntryMatches ((jsSplit required '.').headD "")
            ((jsSplit required '.')[1]?)) := by
  unfold roleHasPermission
  rw [if_neg (by simpa [List.isEmpty_iff] using hne), if_neg (by rw [h1]; simp),
    if_neg (by rw [h2]; simp), if_neg (by rw [h3]; simp)]

theorem jsSplit_eq_two (q : String) (l m : List Char)
    (hq : q.data = l ++ '.' :: m) (hl : '.' ∉ l) (hm : '.' ∉ m) :
    jsSplit q '.' = [String.mk l, String.mk m] := by
  unfold jsSplit
  rw [hq, splitChars_append_cons '.' l m hl, splitChars_of_not_mem '.' m hm]
  rfl

theorem scopedEntryMatches_noScope (resource : String) (action : Option String)
    (q : String) (res act : List Char) (hq : q.data = res ++ '.' :: act)
    (hdres : '.' ∉ res) (hdact : '.' ∉ act) (hcact : ':' ∉ act) :
    scopedEntryMatches resource action q = false := by
  have hsplit := jsSplit_eq_two q res act hq hdres hdact
  have h1 : (jsSplit q '.')[1]? = some (String.mk act) := by rw [hsplit]; simp
  have hcf : ¬((String.mk act).data.contains ':' = true) :=
    fun hh => hcact ((contains_iff_mem _ _).mp hh)
  unfold scopedEntryMatches
  simp only [h1]
  rw [if_neg hcf]

theorem scopedEntryMatches_withScope (resource a2 : String) (q : String)
    (res act sc : List Char)
    (hq : q.data = res ++ '.' :: (act ++ ':' :: sc))
    (hdres : '.' ∉ res) (hdrest : '.' ∉ act ++ ':' :: sc) (hcact : ':' ∉ act) :
    scopedEntryMatches resource (some a2) q
      = ((String.mk res == resource) && (String.mk act == a2)) := by
  have hsplit := jsSplit_eq_two q res (act ++ ':' :: sc) hq hdres hdrest
  have h1 : (jsSplit q '.')[1]? = some (String.mk (act ++ ':' :: sc)) := by
    rw [hsplit]
    simp
  have hct : (String.mk (act ++ ':' :: sc)).data.contains ':' = true :=
    (contains_iff_mem _ _).mpr (List.mem_append.mpr (Or.inr (List.mem_cons_self ':' sc)))
  have hhead : (jsSplit q '.').headD "" = String.mk res := by rw [hsplit]; rfl
  have hjs2 : (jsSplit (String.mk (act ++ ':' :: sc)) ':').headD "" = String.mk act := by
    unfold jsSplit
    rw [show (String.mk (act ++ ':' :: sc)).data = act ++ ':' :: sc from rfl,
      splitChars_append_cons ':' act sc hcact]
    rfl
  unfold scopedEntryMatches
  simp only [h1]
  rw [if_pos hct, hhead, hjs2]

theorem refScoped_eq_none (rRes : List Char) (rAct : Option (List Char)) (e : String)
    (h : splitAtChar ':' e.data = none) : refScopedMatches rRes rAct e = false := by
  unfold refScopedMatches
  simp only [h]

theorem refScoped_eq_some (rRes : List Char) (rAct : Option (List Char)) (e : String)
    (base rest2 : List Char) (h : splitAtChar ':' e.data = some (base, rest2)) :
    refScopedMatches rRes rAct e
      = (((splitAtChar '.' base).elim base (·.1) == rRes)
          && ((splitAtChar '.' base).map (·.2) == rAct)) := by
  unfold refScopedMatches
  simp only [h]

theorem scoped_clause_eq (br ba : List Char) (q : String)
    (hq : q = "*" ∨ q = "all" ∨ PermGrammar q.data) :
    scopedEntryMatches (String.mk br) (some (String.mk ba)) q
      = refScopedMatches br (some ba) q := by
  rcases hq with rfl | rfl | ⟨res, act, hres, hact, hforms⟩
  · rfl
  · rfl
  · have hdres : '.' ∉ res := wordL_not_mem res hres '.' (by decide)
    have hcres : ':' ∉ res := wordL_not_mem res hres ':' (by decide)
    have hactn := actL_not_mem hact
    rcases hforms with hform | ⟨sc, hsc, hform⟩
    · have hnc : ':' ∉ q.data := by
        rw [hform]
        intro hm
        rcases List.mem_append.mp hm with h2 | h2
        · exact hcres h2
        · rcases List.mem_cons.mp h2 with h3 | h3
          · exact absurd h3 (by decide)
          · exact hactn.2 h3
      rw [refScoped_eq_none _ _ q (splitAtChar_eq_none ':' q.data hnc)]
      exact scopedEntryMatches_noScope _ _ q res act hform hdres hactn.1 hactn.2
    · have hform2 : q.data = res ++ '.' :: (act ++ ':' :: sc) := by rw [hform]; simp
      have hform3 : q.data = (res ++ '.' :: act) ++ ':' :: sc := by rw [hform]
      have hdrest : '.' ∉ act ++ ':' :: sc := by
        intro hm
        rcases List.mem_append.mp hm with h2 | h2
        · exact hactn.1 h2
        · rcases List.mem_cons.mp h2 with h3 | h3
          · exact absurd h3 (by decide)
          · exact (wordL_not_mem sc hsc '.' (by decide)) h3
      have hncbase : ':' ∉ res ++ '.' :: act := by
        intro hm
        rcases List.mem_append.mp hm with h2 | h2
        · exact hcres h2
        · rcases List.mem_cons.mp h2 with h3 | h3
          · exact absurd h3 (by decide)
          · exact hactn.2 h3
      rw [scopedEntryMatches_withScope _ _ q res act sc hform2 hdres hdrest hactn.2]
      rw [refScoped_eq_some br (some ba) q (res ++ '.' :: act) sc
        (by rw [hform3]; exact splitAtChar_append_cons ':' _ sc hncbase)]
      rw [splitAtChar_append_cons '.' res act hdres]
      simp [mk_beq_mk, some_beq_some]

/-! # C5 — Matches equals the reference definition -/

/-- C5: the Role method grants everything once a global star is present;
a resource star entry grants every action of that resource; the scoped
grant satisfies the bare permission of the concrete example; and on
grant sets whose entries are the star, the word all, or grammatical
permission strings, and a required string of the bare resource-dot-action
form, the method coincides with the reference matcher of the
specification. -/
theorem role_hasPermission_reference (granted : List String) (required r a : String) :
    ("*" ∈ granted → roleHasPermission granted required = true)
    ∧ ('.' ∉ r.data → (r ++ ".*") ∈ granted →
        roleHasPermission granted (r ++ "." ++ a) = true)
    ∧ roleHasPermission ["users.create:subordinate"] "users.create" = true
    ∧ ((∀ q ∈ granted, q = "*" ∨ q = "all" ∨ PermGrammar q.data) →
        (∃ br ba, WordL br ∧ WordL ba ∧ required.data = br ++ '.' :: ba) →
        roleHasPermission granted required = matchesRef granted required) := by
  refine ⟨?_, ?_, by decide, ?_⟩
  · intro hstar
    have hne : granted ≠ [] := fun h => by simp [h] at hstar
    have hc : granted.contains "*" = true := (contains_iff_mem _ _).mpr hstar
    exact roleHasPermission_wild granted required hne (by rw [hc]; simp)
  · intro hdot hmem
    have hne : granted ≠ [] := fun h => by simp [h] at hmem
    have hdata : (r ++ "." ++ a).data = r.data ++ '.' :: a.data := by
      rw [String.data_append, String.data_append]
      simp
    by_cases h1 : (granted.contains "*" || granted.contains "all") = true
    · exact roleHasPermission_wild granted _ hne h1
    · have h1f : (granted.contains "*" || granted.contains "all") = false := by
        simpa using h1
      by_cases h2 : granted.contains (r ++ "." ++ a) = true
      · exact roleHasPermission_verbatim granted _ hne h1f h2
      · have h2f : granted.contains (r ++ "." ++ a) = false := by simpa using h2
        have hres : (jsSplit (r ++ "." ++ a) '.').headD "" = r := by
          unfold jsSplit
          rw [hdata, splitChars_append_cons '.' r.data a.data hdot]
          rfl
        have hcw : granted.contains ((jsSplit (r ++ "." ++ a) '.').headD "" ++ ".*")
            = true := by
          rw [hres]
          exact (contains_iff_mem _ _).mpr hmem
        exact roleHasPermission_resWild granted _ hne h1f h2f hcw
  · intro hok hreq
    obtain ⟨br, ba, hbr, hba, hdata⟩ := hreq
    have hdbr : '.' ∉ br := wordL_not_mem br hbr '.' (by decide)
    have hdba : '.' ∉ ba := wordL_not_mem ba hba '.' (by decide)
    have hsac : splitAtChar '.' required.data = some (br, ba) := by
      rw [hdata]
      exact splitAtChar_append_cons '.' br ba hdbr
    have hparts : jsSplit required '.' = [String.mk br, String.mk ba] :=
      jsSplit_eq_two required br ba hdata hdbr hdba
    cases hg : granted with
    | nil => simp [roleHasPermission, matchesRef]
    | cons g gs =>
      have hne : g :: gs ≠ [] := by simp
      by_cases h1 : ((g :: gs).contains "*" || (g :: gs).contains "all") = true
      · have hcode := roleHasPermission_wild (g :: gs) required hne h1
        have h1or : (g :: gs).contains "*" = true ∨ (g :: gs).contains "all" = true := by
          simpa using h1
        have href : matchesRef (g :: gs) required = true := by
          unfold matchesRef
          rcases h1or with h | h <;> rw [h] <;> simp
        rw [hcode, href]
      · have h1f : ((g :: gs).contains "*" || (g :: gs).contains "all") = false := by
          simpa using h1
        obtain ⟨h1a, h1b⟩ := Bool.or_eq_false_iff.mp h1f
        by_cases h2 : (g :: gs).contains required = true
        · have hcode := roleHasPermission_verbatim (g :: gs) required hne h1f h2
          have href : matchesRef (g :: gs) required = true := by
            unfold matchesRef
            rw [h2]
            simp
          rw [hcode, href]
        · have h2f : (g :: gs).contains required = false := by simpa using h2
          have hcw_eq : (g :: gs).contains ((jsSplit required '.').headD "" ++ ".*")
              = (g :: gs).any
                  (fun e =>
                    e.data
                      == ((splitAtChar '.' required.data).elim required.data (·.1))
                        ++ ['.', '*']) := by
            rw [hparts, hsac]
            rw [Bool.eq_iff_iff]
            constructor
            · intro h
              have hmem := (contains_iff_mem _ _).mp h
              refine List.any_eq_true.mpr ⟨_, hmem, beq_iff_eq.mpr ?_⟩
              rw [String.data_append]
              rfl
            · intro h
              obtain ⟨e, he, hbq⟩ := List.any_eq_true.mp h
              have he2 : e = String.mk br ++ ".*" := by
                apply String.ext
                rw [beq_iff_eq.mp hbq, String.data_append]
                rfl
              exact (contains_iff_mem _ _).mpr (he2 ▸ he)
          by_cases h3 : (g :: gs).contains ((jsSplit required '.').headD "" ++ ".*") = true
          · have hcode := roleHasPermission_resWild (g :: gs) required hne h1f h2f h3
            have h4 : (g :: gs).any
                (fun e =>
                  e.data
                    == ((splitAtChar '.' required.data).elim required.data (·.1))
                      ++ ['.', '*']) = true := by
              rw [← hcw_eq]
              exact h3
            have href : matchesRef (g :: gs) required = true := by
              unfold matchesRef
              rw [h4]
              simp
            rw [hcode, href]
          · have h3f : (g :: gs).contains ((jsSplit required '.').headD "" ++ ".*")
                = false := by simpa using h3
            have h4f : (g :: gs).any
                (fun e =>
                  e.data
                    == ((splitAtChar '.' required.data).elim required.data (·.1))
                      ++ ['.', '*']) = false := by
              rw [← hcw_eq]
              exact h3f
            have hcode := roleHasPermission_else (g :: gs) required hne h1f h2f h3f
            have href : matchesRef (g :: gs) required
                = (g :: gs).any
                    (refScopedMatches
                      ((splitAtChar '.' required.data).elim required.data (·.1))
                      ((splitAtChar '.' required.data).map (·.2))) := by
              unfold matchesRef
              rw [h1a, h1b, h2f, h4f]
              simp
            rw [hcode, href, hparts, hsac]
            exact any_congr (g :: gs) fun q hq =>
              scoped_clause_eq br ba q (hok q (hg ▸ hq))

end ACS
